import Mathlib

/-!
Shallow embedding of the quiz application `qa_choices.py`.

The Python source is a Streamlit application built around a small core:
random question selection with option shuffling (`get_random_questions`),
an in-progress attempt held in session state (answers, submitted flag,
start time), SQLite-backed persistence of sessions
(`save_session` / `load_session`), per-run score aggregation
(`st.session_state.quiz_scores` in `display_quiz_results`), achievement
evaluation and idempotent persistence (`check_achievements`), and a
leaderboard derived from recorded scores (`display_user_statistics`).

Modelling conventions:
* Python `random.sample` and `random.shuffle` are modelled as explicit
  function parameters; theorems quantify over all samplers/shufflers
  satisfying the contract of the library functions (a sample of size `k`
  has length `k` and draws its elements from the input; a shuffle
  produces a permutation).
* SQLite tables keyed by a primary key or unique constraint are modelled
  as association lists; `INSERT OR REPLACE` and Python `dict` assignment
  become `upsertAssoc`, which replaces the first binding in place or
  appends a new one (insertion order preserved, as for a Python dict).
* `json.dumps` / `json.loads` are modelled by an explicit JSON value
  tree `JValue` with an encoder and a decoder for the data actually
  serialized (question records and answer lists).
* Floating-point scores are modelled as rationals.
-/

/-- A question record as loaded from a quiz JSON file: the fields the
core logic reads (`question`, `options`, `correct_answer`). -/
structure Question where
  question : String
  options : List String
  correct_answer : String
deriving DecidableEq

/-- The `(option, is_correct)` pair list built in `get_random_questions`:
`option_pairs = [(opt, opt == correct_answer) for opt in options]`. -/
def optionPairs (options : List String) (correct_answer : String) : List (String × Bool) :=
  options.map (fun opt => (opt, opt == correct_answer))

/-- The update performed on one question after `random.shuffle(option_pairs)`:
`options` becomes the first components of the shuffled pairs, and
`correct_answer` is reset to the first pair flagged correct (the `for`/`break`
loop); if no pair is flagged, the field is left unchanged. -/
def applyShuffledPairs (q : Question) (shuffled : List (String × Bool)) : Question :=
  { question := q.question
    options := shuffled.map Prod.fst
    correct_answer :=
      match shuffled.find? (fun p => p.2) with
      | some p => p.1
      | none => q.correct_answer }

/-- The per-question body of the shuffle loop in `get_random_questions`,
with the `random.shuffle` call abstracted as the `shuffle` parameter. -/
def shuffleQuestionOptions (shuffle : List (String × Bool) → List (String × Bool))
    (q : Question) : Question :=
  applyShuffledPairs q (shuffle (optionPairs q.options q.correct_answer))

/-- Model of `get_random_questions(questions, num_questions)`: returns `None` on an
empty list, otherwise clamps the count to `min(num_questions, len(questions))`,
draws a random sample of that size (`sample` abstracts `random.sample`) and
shuffles each selected question's options. -/
def get_random_questions (sample : List Question → Nat → List Question)
    (shuffle : List (String × Bool) → List (String × Bool))
    (questions : List Question) (num_questions : Nat) : Option (List Question) :=
  if questions.isEmpty then none
  else
    some ((sample questions (min num_questions questions.length)).map
      (shuffleQuestionOptions shuffle))

/-- The slice of `st.session_state` read by the submit handler in
`display_quiz_questions`. -/
structure QuizState where
  user_answers : List String
  submitted : Bool
deriving DecidableEq

/-- The "Submit Quiz" button handler: if `"" in st.session_state.user_answers`
the submission is rejected (state unchanged, an error is shown), otherwise
`st.session_state.submitted = True`. -/
def submit_quiz (s : QuizState) : QuizState :=
  if "" ∈ s.user_answers then s else { s with submitted := true }

/-- Association-list upsert: replaces the first binding of the key in place,
or appends a new binding. Models both Python `dict` assignment (insertion
order preserved) and SQLite `INSERT OR REPLACE` on a primary key. -/
def upsertAssoc {β : Type} (l : List (String × β)) (k : String) (v : β) :
    List (String × β) :=
  match l with
  | [] => [(k, v)]
  | p :: ps => if p.1 == k then (k, v) :: ps else p :: upsertAssoc ps k v

/-- Association-list lookup (first binding wins). -/
def lookupAssoc {β : Type} (l : List (String × β)) (k : String) : Option β :=
  (l.find? (fun p => p.1 == k)).map Prod.snd

/-- Model of `st.session_state.quiz_scores[quiz_name] = score_percentage` in
`display_quiz_results`. -/
def updateQuizScores (scores : List (String × ℚ)) (quiz_name : String)
    (score_percentage : ℚ) : List (String × ℚ) :=
  upsertAssoc scores quiz_name score_percentage

/-- Model of `completed_quizzes = len(st.session_state.quiz_scores)`. -/
def completedQuizzes (scores : List (String × ℚ)) : Nat :=
  scores.length

/-- Model of `average_score = total_score / completed_quizzes if completed_quizzes > 0
else 0` where `total_score = sum(st.session_state.quiz_scores.values())`. -/
def averageScore (scores : List (String × ℚ)) : ℚ :=
  if scores.length = 0 then 0
  else (scores.map Prod.snd).sum / scores.length

/-- JSON values, the image of `json.dumps` for the data the application
serializes (strings, arrays, objects). -/
inductive JValue where
  | jstr (s : String)
  | jarr (items : List JValue)
  | jobj (fields : List (String × JValue))

/-- Serialization (`json.dumps`) of one question record. -/
def encodeQuestion (q : Question) : JValue :=
  .jobj [("question", .jstr q.question),
         ("options", .jarr (q.options.map JValue.jstr)),
         ("correct_answer", .jstr q.correct_answer)]

/-- Reading a JSON string back. -/
def decodeStr : JValue → Option String
  | .jstr s => some s
  | _ => none

/-- Parsing (`json.loads`) of one question record (inverse of `encodeQuestion`). -/
def decodeQuestion : JValue → Option Question
  | .jobj [("question", .jstr qs), ("options", .jarr opts),
           ("correct_answer", .jstr ca)] =>
      (opts.mapM decodeStr).map (fun os => ⟨qs, os, ca⟩)
  | _ => none

/-- Model of `questions_json = json.dumps(session_data['questions'])`. -/
def encodeQuestions (qs : List Question) : JValue :=
  .jarr (qs.map encodeQuestion)

/-- Model of `json.loads(questions_json)`. -/
def decodeQuestions : JValue → Option (List Question)
  | .jarr items => items.mapM decodeQuestion
  | _ => none

/-- Model of `answers_json = json.dumps(session_data['user_answers'])`. -/
def encodeAnswers (ans : List String) : JValue :=
  .jarr (ans.map JValue.jstr)

/-- Model of `json.loads(answers_json)`. -/
def decodeAnswers : JValue → Option (List String)
  | .jarr items => items.mapM decodeStr
  | _ => none

/-- One row of the `quiz_sessions` table: `questions` and `user_answers`
are stored in their serialized (JSON) form, `start_time` as a REAL,
`is_exam` as a boolean. -/
structure SessionRow where
  user_name : String
  quiz_name : String
  questions : JValue
  user_answers : JValue
  start_time : ℚ
  is_exam : Bool

/-- The in-memory session snapshot assembled in `display_quiz_questions`
and returned by `load_session`. Note there is no `submitted` field: the
`quiz_sessions` schema does not store the submitted flag. -/
structure SessionData where
  user_name : String
  quiz_name : String
  questions : List Question
  user_answers : List String
  start_time : ℚ
  is_exam : Bool
deriving DecidableEq

/-- The `quiz_sessions` table, keyed by `session_id` (primary key). -/
def SessionDB : Type := List (String × SessionRow)

/-- Model of `save_session(session_id, session_data)`: serializes questions and
answers to JSON and performs `INSERT OR REPLACE` keyed by `session_id`. -/
def save_session (db : SessionDB) (session_id : String) (d : SessionData) : SessionDB :=
  upsertAssoc db session_id
    ⟨d.user_name, d.quiz_name, encodeQuestions d.questions,
     encodeAnswers d.user_answers, d.start_time, d.is_exam⟩

/-- Model of `load_session(session_id)`: selects the row with the given id and
parses the serialized questions and answers back; returns `None` when no
row exists (a JSON parse failure would raise in Python and is modelled as
`none`, but cannot occur for rows written by `save_session`). -/
def load_session (db : SessionDB) (session_id : String) : Option SessionData :=
  match lookupAssoc db session_id with
  | none => none
  | some r =>
    match decodeQuestions r.questions, decodeAnswers r.user_answers with
    | some qs, some ans =>
        some ⟨r.user_name, r.quiz_name, qs, ans, r.start_time, r.is_exam⟩
    | _, _ => none

/-- The slice of `st.session_state` touched when a saved session is
restored in `display_saved_sessions_page`. -/
structure AppState where
  current_questions : Option (List Question)
  user_answers : List String
  start_time : ℚ
  is_exam : Bool
  submitted : Bool
  session_id : String
  current_quiz_name : String
  current_page : String
deriving DecidableEq

/-- The session-restore handler in `display_saved_sessions_page`: loads the
snapshot and, if present, overwrites `current_questions`, `user_answers`,
`start_time`, `is_exam`, `session_id`, `current_quiz_name` and
`current_page`; every other session-state field — in particular
`submitted` — is left as it was. -/
def restoreSession (s : AppState) (db : SessionDB) (sid : String) : AppState :=
  match load_session db sid with
  | some d =>
      { s with
        current_questions := some d.questions
        user_answers := d.user_answers
        start_time := d.start_time
        is_exam := d.is_exam
        session_id := sid
        current_quiz_name := d.quiz_name
        current_page := "Home" }
  | none => s

/-- One row of the `achievements` table (the `earned_at` timestamp column
is irrelevant to the claims and omitted). -/
structure Achievement where
  user_name : String
  achievement_name : String
  achievement_description : String
deriving DecidableEq

/-- Whether the table already holds a row with the given
`(user_name, achievement_name)` pair — the table's UNIQUE constraint. -/
def hasAchievement (table : List Achievement) (u n : String) : Prop :=
  ∃ a ∈ table, a.user_name = u ∧ a.achievement_name = n

instance (table : List Achievement) (u n : String) :
    Decidable (hasAchievement table u n) := by
  unfold hasAchievement; infer_instance

/-- The `INSERT INTO achievements ... except sqlite3.IntegrityError: pass`
pattern in `check_achievements`: a duplicate `(user_name, achievement_name)`
violates the UNIQUE constraint and is silently skipped. -/
def insertAchievement (table : List Achievement) (a : Achievement) : List Achievement :=
  if hasAchievement table a.user_name a.achievement_name then table
  else table ++ [a]

/-- Number of stored rows with the given `(user_name, achievement_name)` pair. -/
def countAchievement (table : List Achievement) (u n : String) : Nat :=
  table.countP (fun a => a.user_name == u && a.achievement_name == n)

/-- The list-building part of `check_achievements(user_name, score, quiz_name)`:
candidate achievements from the score thresholds and the quiz identity. -/
def evaluate_achievements (score : ℚ) (quiz_name : String) : List (String × String) :=
  (if score ≥ 90 then [("Perfect Score", "Achieved 90% or higher in a quiz")]
   else if score ≥ 80 then [("Great Performance", "Achieved 80% or higher in a quiz")]
   else [])
  ++ (if quiz_name = "50-Question Exam"
      then [("Exam Master", "Completed the 50-question exam")] else [])

/-- Model of `check_achievements`: evaluate the candidates and insert each one,
ignoring duplicates. -/
def check_achievements (table : List Achievement) (user_name : String)
    (score : ℚ) (quiz_name : String) : List Achievement :=
  (evaluate_achievements score quiz_name).foldl
    (fun t c => insertAchievement t ⟨user_name, c.1, c.2⟩) table

/-- One leaderboard entry as built in `display_user_statistics`. -/
structure LBEntry where
  user : String
  best : ℚ
  average : ℚ
  attempts : Nat
deriving DecidableEq

/-- Model of `{"User": user, "Best Score": max(scores) if scores else 0,
"Average Score": sum(scores)/len(scores) if scores else 0,
"Total Attempts": len(entries)}`. -/
def mkEntry (u : String) (scores : List ℚ) : LBEntry :=
  { user := u
    best := (scores.max?).getD 0
    average := if scores.length = 0 then 0 else scores.sum / scores.length
    attempts := scores.length }

/-- Stable descending insertion by `best`: the element being inserted came
later in the original order, so it is placed after every strictly greater
key and before the first key less than or equal to its own. Together with
`sortByBestDesc` this models Python's stable
`list.sort(key=lambda x: x["Best Score"], reverse=True)`. -/
def insertByBest (e : LBEntry) : List LBEntry → List LBEntry
  | [] => [e]
  | f :: fs => if f.best ≤ e.best then e :: f :: fs else f :: insertByBest e fs

/-- Stable descending sort by `best` (insertion sort). -/
def sortByBestDesc : List LBEntry → List LBEntry
  | [] => []
  | e :: es => insertByBest e (sortByBestDesc es)

/-- Grouping one score row into the per-user mapping, as `load_user_scores`
builds its dictionary: append to the existing user's list, or add a new
user at the end (first-appearance order). -/
def addScoreRow (acc : List (String × List ℚ)) (r : String × ℚ) :
    List (String × List ℚ) :=
  match acc with
  | [] => [(r.1, [r.2])]
  | p :: ps => if p.1 == r.1 then (p.1, p.2 ++ [r.2]) :: ps else p :: addScoreRow ps r

/-- The grouping performed by `load_user_scores`: rows (already ordered by
the SQL query) are folded into a per-user mapping in first-appearance
order; only the score field matters to the leaderboard. -/
def load_user_scores_grouped (rows : List (String × ℚ)) : List (String × List ℚ) :=
  rows.foldl addScoreRow []

/-- The per-user entries of the leaderboard, in grouping order. -/
def leaderboardEntries (userScores : List (String × List ℚ)) : List LBEntry :=
  userScores.map (fun p => mkEntry p.1 p.2)

/-- The leaderboard of `display_user_statistics`: per-user best/average/count,
sorted descending by best score with Python's stable sort. -/
def leaderboard (userScores : List (String × List ℚ)) : List LBEntry :=
  sortByBestDesc (leaderboardEntries userScores)

/-! ## Helper lemmas about the option shuffle -/

lemma optionPairs_map_fst (opts : List String) (c : String) :
    (optionPairs opts c).map Prod.fst = opts := by
  simp [optionPairs, Function.comp_def]

lemma optionPairs_flag {opts : List String} {c : String} {p : String × Bool}
    (hp : p ∈ optionPairs opts c) : p.2 = (p.1 == c) := by
  simp only [optionPairs, List.mem_map] at hp
  obtain ⟨opt, _, rfl⟩ := hp
  rfl

lemma optionPairs_fst_mem {opts : List String} {c : String} {p : String × Bool}
    (hp : p ∈ optionPairs opts c) : p.1 ∈ opts := by
  simp only [optionPairs, List.mem_map] at hp
  obtain ⟨opt, hopt, rfl⟩ := hp
  exact hopt

lemma count_fst_of_perm {opts : List String} {c : String} {sp : List (String × Bool)}
    (hperm : sp.Perm (optionPairs opts c)) :
    (sp.map Prod.fst).count c = opts.count c := by
  have h := (hperm.map Prod.fst).count_eq c
  rwa [optionPairs_map_fst] at h

lemma countP_flag_of_perm {opts : List String} {c : String} {sp : List (String × Bool)}
    (hperm : sp.Perm (optionPairs opts c)) :
    sp.countP (fun p => p.2) = opts.count c := by
  rw [hperm.countP_eq, List.count_eq_countP]
  simp [optionPairs, List.countP_map, Function.comp_def]

/-- Core correctness of the per-question shuffle step when exactly one
option matches the correct answer: the reassigned `correct_answer` is the
original one, and it still matches exactly one option. -/
lemma applyShuffledPairs_unique {q : Question} {sp : List (String × Bool)}
    (hperm : sp.Perm (optionPairs q.options q.correct_answer))
    (h1 : q.options.count q.correct_answer = 1) :
    (applyShuffledPairs q sp).correct_answer = q.correct_answer ∧
    (applyShuffledPairs q sp).options.count (applyShuffledPairs q sp).correct_answer = 1 := by
  have hflag : ∀ p ∈ sp, p.2 = (p.1 == q.correct_answer) := fun p hp =>
    optionPairs_flag (hperm.mem_iff.mp hp)
  have hcnt : sp.countP (fun p => p.2) = 1 := by
    rw [countP_flag_of_perm hperm, h1]
  have hex : ∃ p ∈ sp, p.2 = true := by
    have hpos : 0 < sp.countP (fun p => p.2) := by omega
    simpa using List.countP_pos_iff.mp hpos
  have hsome : (sp.find? (fun p => p.2)).isSome := by
    rw [List.find?_isSome]
    obtain ⟨p, hp, hp2⟩ := hex
    exact ⟨p, hp, hp2⟩
  obtain ⟨p', hp'⟩ := Option.isSome_iff_exists.mp hsome
  have hp'2 : p'.2 = true := List.find?_some hp'
  have hp'mem : p' ∈ sp := List.mem_of_find?_eq_some hp'
  have hp'1 : p'.1 = q.correct_answer := by
    have := hflag p' hp'mem
    rw [hp'2] at this
    exact (eq_of_beq this.symm)
  have hcorrect : (applyShuffledPairs q sp).correct_answer = q.correct_answer := by
    simp only [applyShuffledPairs, hp']
    exact hp'1
  refine ⟨hcorrect, ?_⟩
  rw [hcorrect]
  show (sp.map Prod.fst).count q.correct_answer = 1
  rw [count_fst_of_perm hperm, h1]

/-! ## C1, C2, C10 -/

/-- C1: for every question whose options contain exactly one element equal
to `correct_answer` before shuffling, every question returned by
`get_random_questions` again has exactly one option equal to its (possibly
reassigned) `correct_answer`, for any sampler drawing from the input list
and any shuffle that permutes the pair list. -/
theorem get_random_questions_unique_correct_preserved
    (sample : List Question → Nat → List Question)
    (shuffle : List (String × Bool) → List (String × Bool))
    (questions : List Question) (num_questions : Nat) (res : List Question)
    (hshuffle : ∀ ps, (shuffle ps).Perm ps)
    (hsample : ∀ k, ∀ q ∈ sample questions k, q ∈ questions)
    (hone : ∀ q ∈ questions, q.options.count q.correct_answer = 1)
    (hres : get_random_questions sample shuffle questions num_questions = some res) :
    ∀ q ∈ res, q.options.count q.correct_answer = 1 := by
  unfold get_random_questions at hres
  by_cases hempty : questions.isEmpty
  · rw [if_pos hempty] at hres
    exact absurd hres (by simp)
  · rw [if_neg hempty] at hres
    have hres' := Option.some.inj hres
    intro q hq
    rw [← hres'] at hq
    obtain ⟨q0, hq0, rfl⟩ := List.mem_map.mp hq
    exact (applyShuffledPairs_unique (hshuffle _)
      (hone q0 (hsample _ q0 hq0))).2

/-- C1 witness: a one-question list with options `["a", "b"]` and correct
answer `"a"`, sampled by replication and shuffled by reversal. -/
theorem get_random_questions_unique_correct_preserved_witness :
    (Question.mk "p" ["b", "a"] "a").options.count
      (Question.mk "p" ["b", "a"] "a").correct_answer = 1 :=
  get_random_questions_unique_correct_preserved
    (fun _ k => List.replicate k ⟨"p", ["a", "b"], "a"⟩) List.reverse
    [⟨"p", ["a", "b"], "a"⟩] 1 [⟨"p", ["b", "a"], "a"⟩]
    (fun ps => ps.reverse_perm)
    (by intro k q hq; rw [List.eq_of_mem_replicate hq]; exact List.mem_singleton.mpr rfl)
    (by decide)
    (by rfl)
    ⟨"p", ["b", "a"], "a"⟩ (List.mem_singleton.mpr rfl)

/-- C2: `get_random_questions` returns `None` iff the question list is
empty, and otherwise a list of exactly `min num_questions questions.length`
questions, for any sampler honouring `random.sample`'s length contract. -/
theorem get_random_questions_length_spec
    (sample : List Question → Nat → List Question)
    (shuffle : List (String × Bool) → List (String × Bool))
    (questions : List Question) (num_questions : Nat)
    (hsample : ∀ k, k ≤ questions.length → (sample questions k).length = k) :
    (get_random_questions sample shuffle questions num_questions = none ↔ questions = []) ∧
    (∀ res, get_random_questions sample shuffle questions num_questions = some res →
      res.length = min num_questions questions.length) := by
  unfold get_random_questions
  by_cases hempty : questions.isEmpty
  · rw [if_pos hempty]
    simp_all [List.isEmpty_iff]
  · rw [if_neg hempty]
    constructor
    · simp_all [List.isEmpty_iff]
    · intro res hres
      have hres' := Option.some.inj hres
      rw [← hres', List.length_map]
      exact hsample _ (Nat.min_le_right _ _)

/-- C2 witness: two questions, five requested, yielding exactly
`min 5 2 = 2` questions. -/
theorem get_random_questions_length_spec_witness :
    ([Question.mk "p" ["a", "b"] "a", Question.mk "p" ["a", "b"] "a"] : List Question).length
      = min 5 2 :=
  (get_random_questions_length_spec
    (fun _ k => List.replicate k ⟨"p", ["a", "b"], "a"⟩) id
    [⟨"p", ["a", "b"], "a"⟩, ⟨"q", ["c", "d"], "c"⟩] 5
    (fun k _ => List.length_replicate k _)).2
    [⟨"p", ["a", "b"], "a"⟩, ⟨"p", ["a", "b"], "a"⟩] (by rfl)

/-- C10: for a question in which no option equals `correct_answer`, the
shuffle step's reassignment loop finds no pair flagged correct, so
`correct_answer` keeps its original value and still matches no option. -/
theorem shuffle_question_no_match
    (shuffle : List (String × Bool) → List (String × Bool)) (q : Question)
    (hperm : (shuffle (optionPairs q.options q.correct_answer)).Perm
      (optionPairs q.options q.correct_answer))
    (h0 : q.options.count q.correct_answer = 0) :
    (shuffleQuestionOptions shuffle q).correct_answer = q.correct_answer ∧
    (shuffleQuestionOptions shuffle q).options.count q.correct_answer = 0 := by
  set sp := shuffle (optionPairs q.options q.correct_answer) with hsp
  have hnotmem : q.correct_answer ∉ q.options := by
    rwa [← List.count_eq_zero]
  have hflag : ∀ p ∈ sp, ¬(p.2 = true) := by
    intro p hp
    have h1 : p.2 = (p.1 == q.correct_answer) := optionPairs_flag (hperm.mem_iff.mp hp)
    have h2 : p.1 ∈ q.options := optionPairs_fst_mem (hperm.mem_iff.mp hp)
    rw [h1]
    intro hbeq
    exact hnotmem (eq_of_beq hbeq ▸ h2)
  have hnone : sp.find? (fun p => p.2) = none := List.find?_eq_none.mpr hflag
  constructor
  · simp only [shuffleQuestionOptions, applyShuffledPairs, ← hsp, hnone]
  · show (sp.map Prod.fst).count q.correct_answer = 0
    rw [count_fst_of_perm hperm, h0]

/-- C10 witness: a malformed question whose correct answer `"c"` matches
no option, shuffled by reversal. -/
theorem shuffle_question_no_match_witness :
    (shuffleQuestionOptions List.reverse ⟨"p", ["a", "b"], "c"⟩).correct_answer = "c" ∧
    (shuffleQuestionOptions List.reverse ⟨"p", ["a", "b"], "c"⟩).options.count "c" = 0 :=
  shuffle_question_no_match List.reverse ⟨"p", ["a", "b"], "c"⟩
    (List.reverse_perm _) (by decide)

/-! ## C3: submission -/

/-- C3: the submit handler (reached only while `submitted` is false)
rejects the submission, leaving `submitted` false, whenever some answer is
the empty string, and sets `submitted` to true exactly when every answer
is non-empty. -/
theorem submit_quiz_spec (s : QuizState) (h : s.submitted = false) :
    (("" ∈ s.user_answers) → (submit_quiz s).submitted = false) ∧
    ((submit_quiz s).submitted = true ↔ ∀ a ∈ s.user_answers, a ≠ "") := by
  unfold submit_quiz
  by_cases hmem : "" ∈ s.user_answers
  · rw [if_pos hmem]
    refine ⟨fun _ => h, ?_⟩
    rw [h]
    constructor
    · intro hc
      exact absurd hc (by simp)
    · intro hall
      exact absurd rfl (hall "" hmem)
  · rw [if_neg hmem]
    refine ⟨fun hc => absurd hc hmem, ?_⟩
    constructor
    · intro _ a ha hae
      exact hmem (hae ▸ ha)
    · intro _
      rfl

/-- C3 witness: one non-empty answer submits successfully; the property is
instantiated at the state `{user_answers := ["x"], submitted := false}`. -/
theorem submit_quiz_spec_witness :
    (("" ∈ ["x"]) → (submit_quiz ⟨["x"], false⟩).submitted = false) ∧
    ((submit_quiz ⟨["x"], false⟩).submitted = true ↔ ∀ a ∈ ["x"], a ≠ "") :=
  submit_quiz_spec ⟨["x"], false⟩ rfl

/-! ## Association-list lemmas -/

lemma lookupAssoc_upsertAssoc_self {β : Type} (l : List (String × β)) (k : String) (v : β) :
    lookupAssoc (upsertAssoc l k v) k = some v := by
  induction l with
  | nil => simp [upsertAssoc, lookupAssoc]
  | cons p ps ih =>
    by_cases hp : p.1 = k
    · simp [upsertAssoc, lookupAssoc, hp]
    · simp only [upsertAssoc, lookupAssoc, beq_iff_eq, if_neg hp] at ih ⊢
      rw [List.find?_cons_of_neg _ (by simpa using hp)]
      exact ih

lemma lookupAssoc_upsertAssoc_ne {β : Type} (l : List (String × β)) (k k' : String) (v : β)
    (h : k' ≠ k) :
    lookupAssoc (upsertAssoc l k v) k' = lookupAssoc l k' := by
  induction l with
  | nil => simp [upsertAssoc, lookupAssoc, Ne.symm h]
  | cons p ps ih =>
    by_cases hp : p.1 = k
    · simp only [upsertAssoc, beq_iff_eq, if_pos hp, lookupAssoc]
      rw [List.find?_cons_of_neg _ (by simpa using Ne.symm h),
        List.find?_cons_of_neg _ (by simpa using hp ▸ Ne.symm h)]
    · simp only [upsertAssoc, beq_iff_eq, if_neg hp, lookupAssoc] at ih ⊢
      by_cases hp' : p.1 = k'
      · rw [List.find?_cons_of_pos _ (by simpa using hp'),
          List.find?_cons_of_pos _ (by simpa using hp')]
      · rw [List.find?_cons_of_neg _ (by simpa using hp'),
          List.find?_cons_of_neg _ (by simpa using hp')]
        exact ih

/-! ## C4: score aggregation -/

/-- The `quiz_scores` mapping after submitting quiz `"A"` with 80%, then
`"B"` with 100%, then `"A"` again with 60%. -/
def exampleQuizScores : List (String × ℚ) :=
  updateQuizScores (updateQuizScores (updateQuizScores [] "A" 80) "B" 100) "A" 60

/-- C4: each submission overwrites the prior percent for the same
`quiz_name` and leaves other quizzes untouched, and the cumulative average
is the mean over the distinct quiz names: the A-80 / B-100 / A-60 run
yields 2 completed quizzes with average 80 (not the mean of all three
submissions), with A's stored percent 60 and B's 100. -/
theorem quiz_scores_last_attempt_wins :
    (∀ (scores : List (String × ℚ)) (quiz_name other : String) (pct : ℚ),
      lookupAssoc (updateQuizScores scores quiz_name pct) quiz_name = some pct ∧
      (other ≠ quiz_name →
        lookupAssoc (updateQuizScores scores quiz_name pct) other = lookupAssoc scores other)) ∧
    completedQuizzes exampleQuizScores = 2 ∧
    averageScore exampleQuizScores = 80 ∧
    lookupAssoc exampleQuizScores "A" = some 60 ∧
    lookupAssoc exampleQuizScores "B" = some 100 := by
  refine ⟨fun scores quiz_name other pct =>
    ⟨lookupAssoc_upsertAssoc_self scores quiz_name pct,
     fun hne => lookupAssoc_upsertAssoc_ne scores quiz_name other pct hne⟩, ?_, ?_, ?_, ?_⟩
  · decide
  · show averageScore [("A", 60), ("B", 100)] = 80
    norm_num [averageScore]
  · decide
  · decide

/-- C4 witness: the overwrite/untouched facts instantiated at the empty
mapping with quizzes `"A"` and `"B"`. -/
theorem quiz_scores_last_attempt_wins_witness :
    lookupAssoc (updateQuizScores [] "A" 80) "A" = some 80 ∧
    lookupAssoc (updateQuizScores [] "A" 80) "B" = lookupAssoc [] "B" :=
  ⟨(quiz_scores_last_attempt_wins.1 [] "A" "B" 80).1,
   (quiz_scores_last_attempt_wins.1 [] "A" "B" 80).2 (by decide)⟩

/-! ## JSON round-trip lemmas -/

lemma mapM_decodeStr_jstr (l : List String) :
    (l.map JValue.jstr).mapM decodeStr = some l := by
  induction l with
  | nil => rfl
  | cons a as ih =>
    rw [List.map_cons, List.mapM_cons, ih]
    rfl

lemma decodeQuestion_encodeQuestion (q : Question) :
    decodeQuestion (encodeQuestion q) = some q := by
  cases q with
  | mk qs opts ca =>
    show (Option.map _ ((opts.map JValue.jstr).mapM decodeStr)) = _
    rw [mapM_decodeStr_jstr]
    rfl

lemma decodeQuestions_encodeQuestions (qs : List Question) :
    decodeQuestions (encodeQuestions qs) = some qs := by
  show (qs.map encodeQuestion).mapM decodeQuestion = some qs
  induction qs with
  | nil => rfl
  | cons q qs ih =>
    rw [List.map_cons, List.mapM_cons, ih, decodeQuestion_encodeQuestion]
    rfl

lemma decodeAnswers_encodeAnswers (ans : List String) :
    decodeAnswers (encodeAnswers ans) = some ans := by
  show (ans.map JValue.jstr).mapM decodeStr = some ans
  exact mapM_decodeStr_jstr ans

/-! ## C5: session persistence round-trip -/

/-- C5: saving a session snapshot and loading it back by the same
`session_id` returns exactly the values written — `user_name`,
`quiz_name`, the question list, the answer list, `start_time` and
`is_exam` all round-trip through serialization and the upsert. -/
theorem save_load_session_roundtrip (db : SessionDB) (session_id : String) (d : SessionData) :
    load_session (save_session db session_id d) session_id = some d := by
  cases d with
  | mk un qn qs ans t ex =>
    unfold load_session save_session
    rw [lookupAssoc_upsertAssoc_self]
    simp [decodeQuestions_encodeQuestions, decodeAnswers_encodeAnswers]

/-! ## C6: resume semantics -/

/-- A snapshot written while the attempt was in progress (sessions are
only saved from `display_quiz_questions` while `submitted` is false). -/
def c6Data : SessionData :=
  ⟨"alice", "Quiz1", [⟨"p", ["a", "b"], "a"⟩], ["a"], 3, false⟩

/-- An app state at resume time whose `submitted` flag is true (for
example after submitting a different quiz and navigating to the saved
sessions page). -/
def c6App : AppState :=
  ⟨none, [], 0, false, true, "old", "", "Home"⟩

/-- C6 counterexample: the `quiz_sessions` snapshot stores no submitted
flag, and the restore handler never assigns `submitted`. The snapshot
`c6Data` was written while unsubmitted, so under the claim resuming
should yield `submitted = false`; the code leaves the current in-memory
value `true` in place. -/
theorem restore_session_submitted_counterexample :
    (restoreSession c6App (save_session [] "s1" c6Data) "s1").submitted ≠ false := by
  decide

/-- C6 (amended): resuming a persisted session preserves the originally
stored `start_time` (elapsed time accumulates across interruption), but
the snapshot stores no submitted flag: the restore handler leaves the
in-memory `submitted` flag unchanged rather than setting it from the
snapshot. -/
theorem restore_session_spec (s : AppState) (db : SessionDB) (sid : String) (d : SessionData)
    (h : load_session db sid = some d) :
    (restoreSession s db sid).start_time = d.start_time ∧
    (restoreSession s db sid).submitted = s.submitted := by
  unfold restoreSession
  rw [h]
  exact ⟨rfl, rfl⟩

/-- C6 witness: restoring the saved snapshot `c6Data` keeps its start
time 3 and the pre-existing `submitted` value of the state. -/
theorem restore_session_spec_witness :
    (restoreSession c6App (save_session [] "s1" c6Data) "s1").start_time = c6Data.start_time ∧
    (restoreSession c6App (save_session [] "s1" c6Data) "s1").submitted = c6App.submitted :=
  restore_session_spec c6App (save_session [] "s1" c6Data) "s1" c6Data (by rfl)

/-! ## C7: achievement evaluation -/

/-- C7: the candidate achievements are a pure function of the score and
quiz name: "Perfect Score" appears iff the score is at least 90,
"Great Performance" iff the score is in [80, 90) (mutually exclusive,
highest threshold wins), "Exam Master" iff the quiz is the 50-question
exam (independently, so it can combine with a score achievement), and no
other achievement is ever produced. -/
theorem evaluate_achievements_spec (score : ℚ) (quiz_name : String) :
    (("Perfect Score" ∈ (evaluate_achievements score quiz_name).map Prod.fst) ↔ 90 ≤ score) ∧
    (("Great Performance" ∈ (evaluate_achievements score quiz_name).map Prod.fst) ↔
      (80 ≤ score ∧ score < 90)) ∧
    (("Exam Master" ∈ (evaluate_achievements score quiz_name).map Prod.fst) ↔
      quiz_name = "50-Question Exam") ∧
    (∀ n ∈ (evaluate_achievements score quiz_name).map Prod.fst,
      n = "Perfect Score" ∨ n = "Great Performance" ∨ n = "Exam Master") := by
  by_cases h90 : (90 : ℚ) ≤ score
  · have h90' : ¬score < 90 := not_lt.mpr h90
    by_cases hexam : quiz_name = "50-Question Exam" <;>
      simp [evaluate_achievements, h90, h90', hexam]
  · have h90' : score < 90 := not_le.mp h90
    by_cases h80 : (80 : ℚ) ≤ score <;>
      by_cases hexam : quiz_name = "50-Question Exam" <;>
        simp [evaluate_achievements, h90, h90', h80, hexam]

/-- C7 witness: a 95% score on the 50-question exam earns both
"Perfect Score" and "Exam Master". -/
theorem evaluate_achievements_spec_witness :
    "Perfect Score" ∈ (evaluate_achievements 95 "50-Question Exam").map Prod.fst ∧
    "Exam Master" ∈ (evaluate_achievements 95 "50-Question Exam").map Prod.fst :=
  ⟨(evaluate_achievements_spec 95 "50-Question Exam").1.mpr (by norm_num),
   (evaluate_achievements_spec 95 "50-Question Exam").2.2.1.mpr rfl⟩

/-! ## C8: idempotent achievement persistence -/

lemma hasAchievement_insertAchievement_self (t : List Achievement) (a : Achievement) :
    hasAchievement (insertAchievement t a) a.user_name a.achievement_name := by
  unfold insertAchievement
  by_cases h : hasAchievement t a.user_name a.achievement_name
  · rwa [if_pos h]
  · rw [if_neg h]
    exact ⟨a, by simp, rfl, rfl⟩

/-- C8: inserting a candidate achievement whose
`(user_name, achievement_name)` pair already exists is a silent no-op,
so inserting the same achievement twice equals inserting it once, and
starting from a table without the pair it leaves exactly one stored row
with that pair. -/
theorem insert_achievement_idempotent (t : List Achievement) (a : Achievement) :
    insertAchievement (insertAchievement t a) a = insertAchievement t a ∧
    (hasAchievement t a.user_name a.achievement_name → insertAchievement t a = t) ∧
    (¬hasAchievement t a.user_name a.achievement_name →
      countAchievement (insertAchievement (insertAchievement t a) a)
        a.user_name a.achievement_name = 1) := by
  have hnoop : insertAchievement (insertAchievement t a) a = insertAchievement t a := by
    unfold insertAchievement
    rw [if_pos]
    exact hasAchievement_insertAchievement_self t a
  refine ⟨hnoop, fun h => by unfold insertAchievement; rw [if_pos h], fun h => ?_⟩
  rw [hnoop]
  unfold insertAchievement
  rw [if_neg h]
  unfold countAchievement
  rw [List.countP_append]
  have hzero : t.countP (fun x => x.user_name == a.user_name &&
      x.achievement_name == a.achievement_name) = 0 := by
    rw [List.countP_eq_zero]
    intro x hx hpx
    rw [Bool.and_eq_true, beq_iff_eq, beq_iff_eq] at hpx
    exact h ⟨x, hx, hpx.1, hpx.2⟩
  rw [hzero]
  simp

/-- C8 witness: persisting "Perfect Score" for alice twice into an empty
table stores exactly one row. -/
theorem insert_achievement_idempotent_witness :
    countAchievement
      (insertAchievement
        (insertAchievement [] ⟨"alice", "Perfect Score", "d"⟩)
        ⟨"alice", "Perfect Score", "d"⟩) "alice" "Perfect Score" = 1 :=
  (insert_achievement_idempotent [] ⟨"alice", "Perfect Score", "d"⟩).2.2
    (by simp [hasAchievement])

/-! ## C9: leaderboard -/

lemma insertByBest_perm (e : LBEntry) (l : List LBEntry) :
    (insertByBest e l).Perm (e :: l) := by
  induction l with
  | nil => exact List.Perm.refl _
  | cons f fs ih =>
    unfold insertByBest
    split
    · exact List.Perm.refl _
    · exact (ih.cons f).trans (List.Perm.swap e f fs)

lemma insertByBest_sorted {e : LBEntry} {l : List LBEntry}
    (h : List.Pairwise (fun a b => b.best ≤ a.best) l) :
    List.Pairwise (fun a b => b.best ≤ a.best) (insertByBest e l) := by
  induction l with
  | nil => simp [insertByBest]
  | cons f fs ih =>
    rw [List.pairwise_cons] at h
    unfold insertByBest
    by_cases hc : f.best ≤ e.best
    · rw [if_pos hc, List.pairwise_cons]
      refine ⟨?_, List.pairwise_cons.mpr h⟩
      intro b hb
      rcases List.mem_cons.mp hb with rfl | hb
      · exact hc
      · exact le_trans (h.1 b hb) hc
    · rw [if_neg hc, List.pairwise_cons]
      refine ⟨?_, ih h.2⟩
      intro b hb
      have hb' := (insertByBest_perm e fs).mem_iff.mp hb
      rcases List.mem_cons.mp hb' with rfl | hb'
      · exact le_of_lt (not_le.mp hc)
      · exact h.1 b hb'

lemma filter_insertByBest (v : ℚ) (e : LBEntry) (l : List LBEntry) :
    (insertByBest e l).filter (fun x => x.best == v) =
      if e.best = v then e :: l.filter (fun x => x.best == v)
      else l.filter (fun x => x.best == v) := by
  induction l with
  | nil =>
    simp only [insertByBest, List.filter_cons, List.filter_nil]
    by_cases he : e.best = v <;> simp [he]
  | cons f fs ih =>
    unfold insertByBest
    by_cases hc : f.best ≤ e.best
    · rw [if_pos hc]
      by_cases he : e.best = v <;> simp [List.filter_cons, he]
    · rw [if_neg hc]
      by_cases he : e.best = v
      · have hf : ¬f.best = v := by
          intro hfv
          exact absurd (he ▸ hfv.symm ▸ le_refl f.best) hc
        rw [if_pos he]
        simp [List.filter_cons, hf, ih, he]
      · rw [if_neg he]
        simp [List.filter_cons, ih, he]

lemma filter_sortByBestDesc (v : ℚ) (l : List LBEntry) :
    (sortByBestDesc l).filter (fun x => x.best == v) =
      l.filter (fun x => x.best == v) := by
  induction l with
  | nil => rfl
  | cons e es ih =>
    show (insertByBest e (sortByBestDesc es)).filter _ = _
    rw [filter_insertByBest]
    by_cases he : e.best = v
    · rw [if_pos he, ih]
      simp [List.filter_cons, he]
    · rw [if_neg he, ih]
      simp [List.filter_cons, he]

lemma sortByBestDesc_perm (l : List LBEntry) : (sortByBestDesc l).Perm l := by
  induction l with
  | nil => exact List.Perm.refl _
  | cons e es ih =>
    exact (insertByBest_perm e (sortByBestDesc es)).trans (ih.cons e)

lemma sortByBestDesc_sorted (l : List LBEntry) :
    List.Pairwise (fun a b => b.best ≤ a.best) (sortByBestDesc l) := by
  induction l with
  | nil => simp [sortByBestDesc]
  | cons e es ih => exact insertByBest_sorted ih

/-- C9: the leaderboard consists of one entry per grouped user — best
score (max), average score (mean), attempt count — sorted descending by
best score; the sort is a permutation of the grouped entries and is
stable (entries with equal best score keep their original grouping
order, expressed by filtering at each best-score value); on rows
A-70, A-90, B-85 the result is A (best 90, average 80, 2 attempts)
before B (best 85, average 85, 1 attempt). -/
theorem leaderboard_spec (userScores : List (String × List ℚ)) :
    (leaderboard userScores).Perm (leaderboardEntries userScores) ∧
    List.Pairwise (fun a b => b.best ≤ a.best) (leaderboard userScores) ∧
    (∀ v : ℚ, (leaderboard userScores).filter (fun e => e.best == v) =
      (leaderboardEntries userScores).filter (fun e => e.best == v)) ∧
    leaderboard (load_user_scores_grouped [("A", 70), ("A", 90), ("B", 85)]) =
      [⟨"A", 90, 80, 2⟩, ⟨"B", 85, 85, 1⟩] := by
  refine ⟨sortByBestDesc_perm _, sortByBestDesc_sorted _,
    fun v => filter_sortByBestDesc v _, ?_⟩
  show sortByBestDesc (leaderboardEntries (load_user_scores_grouped
    [("A", 70), ("A", 90), ("B", 85)])) = _
  norm_num [load_user_scores_grouped, addScoreRow, leaderboardEntries, mkEntry,
    sortByBestDesc, insertByBest, List.foldl]
